import Mathlib

/-!
Shallow embedding of the WLED usermod `UsermodBrightnessGroups`
(`src/usermods/BrightnessGroups/usermod_v2_brightness_groups.h`).

Strings are modelled as `List Char`.  The C string functions used by the
source (`strtok`, `atoi`, Arduino `String(n, DEC)`) are modelled by
`splitTokens`, `atoi` and `Nat.toDigits 10` below, following their standard
library semantics.  Machine integers are modelled as `Nat`/`Int` with the
conversions of the source made explicit (`uint8_t pixel = atoi(token)` is
an `Int → uint8_t` conversion, i.e. reduction modulo 256).
-/

namespace BrightnessGroups

/-- A digit character, as tested by C's `atoi`. -/
def isDigitChar (c : Char) : Bool := 48 ≤ c.toNat && c.toNat ≤ 57

/-- Whitespace as skipped by C's `atoi` (`isspace` in the "C" locale). -/
def isSpaceChar (c : Char) : Bool := c.toNat == 32 || (9 ≤ c.toNat && c.toNat ≤ 13)

/-- Accumulate the leading decimal digits, stopping at the first non-digit. -/
def atoiDigits : List Char → Nat → Nat
  | [], acc => acc
  | c :: cs, acc => if isDigitChar c then atoiDigits cs (acc * 10 + (c.toNat - 48)) else acc

/-- C `atoi`: skip leading whitespace, read an optional sign, then leading
decimal digits; anything after the digits is ignored, and a string with no
leading digits yields 0. -/
def atoi (s : List Char) : Int :=
  match s.dropWhile isSpaceChar with
  | '-' :: rest => -(atoiDigits rest 0 : Int)
  | '+' :: rest => (atoiDigits rest 0 : Int)
  | s1 => (atoiDigits s1 0 : Int)

/-- `strtok(s, ",")` iterated to exhaustion: the maximal non-empty runs of
non-comma characters of `s`, in order (empty tokens between consecutive
delimiters are never produced by `strtok`). -/
def splitTokens (s : List Char) : List (List Char) :=
  (s.splitOn ',').filter (fun t => !t.isEmpty)

/-- One iteration of the token loop of `process_pixel_group_str`
(lines 65–73): `pixel = atoi(token)` truncates the `int` returned by `atoi`
to `uint8_t` (reduction mod 256); if the result is non-zero and at most the
physical pixel count, entry `pixel-1` of the membership table is set to
`group`, otherwise the token is skipped. -/
def applyToken (len group : Nat) (pg : List Nat) (tok : List Char) : List Nat :=
  let pixel : Nat := (atoi tok % 256).toNat
  if pixel ≠ 0 ∧ pixel ≤ len then pg.set (pixel - 1) group else pg

/-- `process_pixel_group_str(group, str)` (lines 57–74): returns immediately
when `initDone` is false; otherwise tokenizes the string on commas and
applies each token to the membership table `pg`.  `len` is
`strip.getLengthPhysical()`. -/
def process_pixel_group_str (initDone : Bool) (len group : Nat) (s : List Char)
    (pg : List Nat) : List Nat :=
  if initDone then (splitTokens s).foldl (applyToken len group) pg else pg

/-- One iteration of the encoding loop of `generate_formatted_pixel_group`
(lines 82–90): the accumulator pairs the string built so far with the
`started` flag. -/
def encodeStep (pg : List Nat) (group : Nat) (acc : List Char × Bool) (pixel : Nat) :
    List Char × Bool :=
  if pg.getD pixel 0 = group then
    ((if acc.2 then acc.1 ++ [','] else acc.1) ++ Nat.toDigits 10 (pixel + 1), true)
  else acc

/-- `generate_formatted_pixel_group(group)` (lines 76–93): returns the empty
string when the membership table is NULL; otherwise lists the 1-based
indices of the pixels whose membership equals `group`, in ascending order,
comma-separated.  `len` is `strip.getLengthPhysical()`. -/
def generate_formatted_pixel_group (pgOpt : Option (List Nat)) (len group : Nat) :
    List Char :=
  match pgOpt with
  | none => []
  | some pg => ((List.range len).foldl (encodeStep pg group) ([], false)).1

/-- The set (as the ascending list) of 0-based pixel indices whose membership
entry equals `group`: the membership set of a group, read off the table. -/
def groupPixels (pg : List Nat) (len group : Nat) : List Nat :=
  (List.range len).filter (fun i => pg.getD i 0 = group)

/-- The comma-join produced by the encoder: no leading/trailing comma, empty
for an empty token list. -/
def commaJoin : List (List Char) → List Char
  | [] => []
  | [t] => t
  | t :: ts => t ++ ',' :: commaJoin ts

/-- Tail of a comma-join: a comma before every token. -/
def commaTail : List (List Char) → List Char
  | [] => []
  | t :: ts => ',' :: (t ++ commaTail ts)

/-- A color as the four 8-bit channels packed into the `uint32_t` returned by
`strip.getPixelColor` (`R`, `G`, `B`, `W`). -/
structure Color where
  r : Nat
  g : Nat
  b : Nat
  w : Nat
deriving DecidableEq, Repr

/-- One channel of the scaling at lines 270–273: `channel * scale / 100.0`
truncated back to `uint8_t`.  On the domain the overlay draws from
(`channel ≤ 255`, `scale ≤ 100`) the product is at most 25500, the IEEE
double quotient `(channel*scale)/100.0` is correctly rounded and lies in the
same unit interval as the exact rational (whose distance to the next integer
below is at least 1/100 whenever it is not an integer), so its truncation
equals the floor division `channel * scale / 100`, and the result is at most
255 so the store to `uint8_t` does not wrap. -/
def scaleChannel (c s : Nat) : Nat := c * s / 100

/-- The per-pixel body of `handleOverlayDraw` (lines 266–276): scale each of
the four channels and repack. -/
def scaleColor (s : Nat) (c : Color) : Color :=
  ⟨scaleChannel c.r s, scaleChannel c.g s, scaleChannel c.b s, scaleChannel c.w s⟩

/-- The usermod's mutable fields (lines 29–37).  `group_scale` models the
five-entry `uint8_t group_scale[max_groups+1]` as a total map from index to
value; `pixel_groups` is `none` while the `uint8_t *pixel_groups` pointer is
NULL and `some` of the array contents once allocated.  The private
timestamp `lastTime`, mutated only by `loop()`, is not modelled. -/
structure UMState where
  enabled : Bool
  initDone : Bool
  group_scale : Nat → Nat
  pixel_groups : Option (List Nat)

/-- `handleOverlayDraw()` (lines 258–278) acting on the frame's colors
(`colors.getD i _` models `strip.getPixelColor(i)`, the returned list the
colors after the `strip.setPixelColor` calls).  The function returns
`some colors'` for a run that completes, and `none` to mark the undefined
behaviour of executing the loop body with `pixel_groups == NULL` (line 269
dereferences the pointer with no NULL check). -/
def handleOverlayDraw (st : UMState) (len : Nat) (colors : List Color) :
    Option (List Color) :=
  if !st.initDone || !st.enabled then some colors
  else
    match st.pixel_groups with
    | none => if len = 0 then some colors else none
    | some pg =>
        some ((List.range len).map (fun pixel =>
          scaleColor (st.group_scale (pg.getD pixel 0)) (colors.getD pixel ⟨0, 0, 0, 0⟩)))

/-- `setup()` (lines 100–105): fixes the default group's scale at 100 and
marks initialization complete. -/
def setupU (st : UMState) : UMState :=
  { st with
      group_scale := fun j => if j = 0 then 100 else st.group_scale j
      initDone := true }

/-- `enable(bool)` (line 50). -/
def enableU (st : UMState) (b : Bool) : UMState := { st with enabled := b }

/-- `process_pixel_group_str` as a state transformer: the method writes
through `this->pixel_groups`; its callers in `readFromConfig` invoke it only
after the table is allocated. -/
def processPixelsM (st : UMState) (len group : Nat) (s : List Char) : UMState :=
  { st with pixel_groups := st.pixel_groups.map (process_pixel_group_str st.initDone len group s) }

/-- The per-group object of the persisted document (spec §6): a `scale` and
a `pixels` field, either of which may be absent. -/
structure GroupEntry where
  scale : Option Nat
  pixels : Option (List Char)
deriving DecidableEq, Repr

/-- The usermod's top-level object inside the configuration document: pairs
of key string and group object, looked up by exact key match (JSON object
member lookup).  The `enabled` flag, stored under a separate fixed key by
`addToConfig` and never read back by `readFromConfig`, is not carried. -/
def ModuleDoc : Type := List (List Char × GroupEntry)

/-- The key `addToConfig` writes group `g` under (lines 169–173): the
`String groupName = "Group 0"` with `groupName[6] = group + '0'` applied,
i.e. `"Group "` followed by the digit of `g`. -/
def saveGroupKey (g : Nat) : List Char :=
  ['G', 'r', 'o', 'u', 'p', ' ', Char.ofNat (48 + g)]

/-- The key `readFromConfig` reads group `g` from (lines 204–208): the
`String groupName = "group0"` with `groupName[5] = group + '0'` applied,
i.e. `"group"` followed by the digit of `g`. -/
def loadGroupKey (g : Nat) : List Char :=
  ['g', 'r', 'o', 'u', 'p', Char.ofNat (48 + g)]

/-- `addToConfig(root)` (lines 164–177) restricted to the group objects it
creates: for each group 1..4, under `saveGroupKey g`, the current scale and
the encoded membership string.  `len` is `strip.getLengthPhysical()`. -/
def addToConfig (st : UMState) (len : Nat) : ModuleDoc :=
  (List.range' 1 4).map (fun g =>
    (saveGroupKey g,
      { scale := some (st.group_scale g)
        pixels := some (generate_formatted_pixel_group st.pixel_groups len g) }))

/-- `top[groupName]` of `readFromConfig`: exact-key lookup of group `g`'s
object; `none` both when the whole usermod object is absent (`top.isNull()`)
and when the per-group key is missing. -/
def lookupGroup (doc : Option ModuleDoc) (g : Nat) : Option GroupEntry :=
  doc.bind (fun d => d.lookup (loadGroupKey g))

/-- Modelled from the spec: `getJsonValue(element, destination, default)` is
WLED-core code not under `src/`.  Per the source's own comment (lines
190–191) and spec §4.4/§6, it copies the stored value into the destination
and reports `true` when the field is present, and writes the default and
reports `false` when it is absent; spec §6 types the `scale` field as an
unsigned integer. -/
def getJsonValueNat (field : Option Nat) (dflt : Nat) : Nat × Bool :=
  match field with
  | some v => (v, true)
  | none => (dflt, false)

/-- Modelled from the spec: the string-typed counterpart of `getJsonValue`
for the `pixels` field (default the empty string when absent). -/
def getJsonValueStr (field : Option (List Char)) (dflt : List Char) : List Char × Bool :=
  match field with
  | some v => (v, true)
  | none => (dflt, false)

/-- The loop body of `readFromConfig` (lines 206–221) iterated over the
given group ids, threading the state and the `configComplete` flag.
Per group: read and store the scale (default 100), clamp values above 100
to 100, read the pixels string (default empty), then — if `pixel_groups`
is still NULL — allocate it (`alloc` is the outcome of
`malloc(strip.getLengthPhysical())`: `none` for failure, `some junk` for a
fresh block whose contents `junk` are indeterminate, since `malloc` does
not initialize); on allocation failure return `false` immediately;
finally decode the pixels string. -/
def readGroups (doc : Option ModuleDoc) (len : Nat) (alloc : Option (List Nat)) :
    List Nat → UMState → Bool → UMState × Bool
  | [], st, cc => (st, cc)
  | g :: gs, st, cc =>
      let sv := getJsonValueNat ((lookupGroup doc g).bind (fun e => e.scale)) 100
      let scale1 := if sv.1 > 100 then 100 else sv.1
      let st1 : UMState :=
        { st with group_scale := fun j => if j = g then scale1 else st.group_scale j }
      let pv := getJsonValueStr ((lookupGroup doc g).bind (fun e => e.pixels)) []
      let cc2 := cc && sv.2 && pv.2
      match st1.pixel_groups with
      | some _ => readGroups doc len alloc gs (processPixelsM st1 len g pv.1) cc2
      | none =>
          match alloc with
          | none => (st1, false)
          | some junk =>
              readGroups doc len alloc gs
                (processPixelsM { st1 with pixel_groups := some junk } len g pv.1) cc2

/-- `readFromConfig(root)` (lines 195–224): `doc` is `root[FPSTR(_name)]`
(`none` when that object is null), `configComplete` starts as
`!top.isNull()`, and the groups 1..4 are processed in order.  Returns the
final state and the returned boolean. -/
def readFromConfig (doc : Option ModuleDoc) (len : Nat) (alloc : Option (List Nat))
    (st : UMState) : UMState × Bool :=
  readGroups doc len alloc [1, 2, 3, 4] st (!doc.isNone)

/-- The scale `readFromConfig` stores for a group whose document field is
`field`: the default 100 when absent, the stored value clamped above at 100
when present. -/
def loadedScale (field : Option Nat) : Nat :=
  match field with
  | none => 100
  | some v => if v > 100 then 100 else v

/-- The state-mutating entry points of the usermod, as invoked by the host.
`opLoopTick` models `loop()`, which mutates only its private timestamp
(none of the modelled fields); `opAddToConfig` and `opOverlayDraw` model
`addToConfig` and `handleOverlayDraw`, which read the state and write only
the document or the strip. -/
inductive UMOp where
  | opEnable (b : Bool)
  | opSetup
  | opReadConfig (doc : Option ModuleDoc) (len : Nat) (alloc : Option (List Nat))
  | opProcessPixels (len group : Nat) (s : List Char)
  | opLoopTick
  | opAddToConfig (len : Nat)
  | opOverlayDraw (len : Nat) (colors : List Color)

/-- The effect of each entry point on the usermod's fields. -/
def applyOp (st : UMState) : UMOp → UMState
  | .opEnable b => enableU st b
  | .opSetup => setupU st
  | .opReadConfig doc len alloc => (readFromConfig doc len alloc st).1
  | .opProcessPixels len group s => processPixelsM st len group s
  | .opLoopTick => st
  | .opAddToConfig _ => st
  | .opOverlayDraw _ _ => st

/-- A concrete state used to exercise the save/load round trip: enabled,
initialized, group scales 1..4 all 50, one pixel assigned to group 2. -/
def stRound : UMState :=
  { enabled := true
    initDone := true
    group_scale := fun j => if j = 0 then 100 else 50
    pixel_groups := some [2] }

/-- The boot-time state: fields at their initializers (lines 29–37), the
scale array's contents before `setup()` left abstract as `scales`. -/
def initialState (scales : Nat → Nat) : UMState :=
  { enabled := false
    initDone := false
    group_scale := scales
    pixel_groups := none }

/-- A state for exercising the overlay: enabled and initialized, group 2 at
scale 50, a two-pixel strip with pixel 0 in group 2 and pixel 1 in group 0. -/
def stOverlay : UMState :=
  { enabled := true
    initDone := true
    group_scale := fun j => if j = 2 then 50 else 100
    pixel_groups := some [2, 0] }

/-- The frame colors fed to the overlay in the concrete run. -/
def colsOverlay : List Color := [⟨200, 200, 200, 200⟩, ⟨10, 20, 30, 40⟩]

section CodecLemmas

set_option maxRecDepth 20000 in
set_option maxHeartbeats 1000000 in
/-- Decimal rendering inverts through `atoi` on 1..255, the range a 1-based
pixel index survives the `uint8_t` truncation in;
and a rendered decimal is non-empty and contains no comma. -/
theorem atoi_toDigits_inv : ∀ n, n < 256 → 1 ≤ n →
    (atoi (Nat.toDigits 10 n) = (n : Int) ∧ ',' ∉ Nat.toDigits 10 n ∧
      Nat.toDigits 10 n ≠ []) := by
  decide

theorem commaJoin_eq_intercalate (ts : List (List Char)) :
    commaJoin ts = List.intercalate [','] ts := by
  induction ts with
  | nil => rfl
  | cons t ts ih =>
      cases ts with
      | nil => simp [commaJoin, List.intercalate]
      | cons t' ts' =>
          simp only [commaJoin] at ih ⊢
          rw [ih]
          simp [List.intercalate, List.intersperse]

theorem splitTokens_commaJoin (ts : List (List Char))
    (h1 : ∀ t ∈ ts, t ≠ []) (h2 : ∀ t ∈ ts, ',' ∉ t) :
    splitTokens (commaJoin ts) = ts := by
  cases hts : ts with
  | nil => simp [commaJoin, splitTokens]
  | cons t ts' =>
      subst hts
      rw [commaJoin_eq_intercalate, splitTokens,
        List.splitOn_intercalate _ ',' h2 (by simp)]
      rw [List.filter_eq_self]
      intro a ha
      simpa using h1 a ha

theorem encodeStep_pos (pg : List Nat) (group i : Nat) (acc : List Char × Bool)
    (hp : pg.getD i 0 = group) :
    encodeStep pg group acc i =
      ((if acc.2 then acc.1 ++ [','] else acc.1) ++ Nat.toDigits 10 (i + 1), true) := by
  rw [encodeStep, if_pos hp]

theorem encodeStep_neg (pg : List Nat) (group i : Nat) (acc : List Char × Bool)
    (hp : ¬pg.getD i 0 = group) :
    encodeStep pg group acc i = acc := by
  rw [encodeStep, if_neg hp]

theorem filter_getD_cons_pos (pg : List Nat) (group i : Nat) (l : List Nat)
    (hp : pg.getD i 0 = group) :
    (i :: l).filter (fun j => pg.getD j 0 = group) =
      i :: l.filter (fun j => pg.getD j 0 = group) := by
  rw [List.filter_cons, if_pos (by simpa using hp)]

theorem filter_getD_cons_neg (pg : List Nat) (group i : Nat) (l : List Nat)
    (hp : ¬pg.getD i 0 = group) :
    (i :: l).filter (fun j => pg.getD j 0 = group) =
      l.filter (fun j => pg.getD j 0 = group) := by
  rw [List.filter_cons, if_neg (by simpa using hp)]

theorem encode_foldl_started (pg : List Nat) (group : Nat) :
    ∀ (l : List Nat) (acc : List Char),
      (l.foldl (encodeStep pg group) (acc, true)).1 =
        acc ++ commaTail ((l.filter (fun j => pg.getD j 0 = group)).map
          (fun i => Nat.toDigits 10 (i + 1))) := by
  intro l
  induction l with
  | nil => intro acc; simp [commaTail]
  | cons i l ih =>
      intro acc
      by_cases hp : pg.getD i 0 = group
      · rw [List.foldl_cons, encodeStep_pos pg group i _ hp, filter_getD_cons_pos pg group i l hp]
        rw [ih]
        simp [commaTail]
      · rw [List.foldl_cons, encodeStep_neg pg group i _ hp, filter_getD_cons_neg pg group i l hp]
        exact ih acc

theorem commaJoin_cons (t : List Char) (ts : List (List Char)) :
    commaJoin (t :: ts) = t ++ commaTail ts := by
  induction ts generalizing t with
  | nil => simp [commaJoin, commaTail]
  | cons u us ih => rw [commaJoin, commaTail, ih u]; simp

theorem encode_foldl_eq (pg : List Nat) (group : Nat) (l : List Nat) :
    (l.foldl (encodeStep pg group) ([], false)).1 =
      commaJoin ((l.filter (fun j => pg.getD j 0 = group)).map
        (fun i => Nat.toDigits 10 (i + 1))) := by
  induction l with
  | nil => rfl
  | cons i l ih =>
      by_cases hp : pg.getD i 0 = group
      · rw [List.foldl_cons, encodeStep_pos pg group i _ hp, filter_getD_cons_pos pg group i l hp]
        rw [encode_foldl_started, List.map_cons, commaJoin_cons]
        simp
      · rw [List.foldl_cons, encodeStep_neg pg group i _ hp, filter_getD_cons_neg pg group i l hp]
        exact ih

/-- The encoder produces the comma-join of the decimal renderings of the
1-based indices of the group's members, in ascending order. -/
theorem generate_eq_commaJoin (pg : List Nat) (len group : Nat) :
    generate_formatted_pixel_group (some pg) len group =
      commaJoin ((groupPixels pg len group).map (fun i => Nat.toDigits 10 (i + 1))) := by
  simp only [generate_formatted_pixel_group, groupPixels]
  exact encode_foldl_eq pg group (List.range len)

/-- A decimal token for a 1-based index in 1..255 that fits the strip is
decoded into the membership write at its 0-based index. -/
theorem applyToken_toDigits (len group : Nat) (pg : List Nat) (i : Nat)
    (hlen : i < len) (h255 : i + 1 ≤ 255) :
    applyToken len group pg (Nat.toDigits 10 (i + 1)) = pg.set i group := by
  obtain ⟨ha, -, -⟩ := atoi_toDigits_inv (i + 1) (by omega) (by omega)
  have hemod : (atoi (Nat.toDigits 10 (i + 1)) % 256).toNat = i + 1 := by
    rw [ha, Int.emod_eq_of_lt (by positivity) (by exact_mod_cast (by omega : i + 1 < 256))]
    simp
  rw [applyToken]
  simp only [hemod]
  rw [if_pos ⟨by omega, by omega⟩]
  simp

/-- Tokens that are all decimal renderings of small in-range 1-based indices
decode exactly as the sequence of membership writes at their 0-based
indices. -/
theorem foldl_applyToken_digits (len group : Nat) :
    ∀ (S : List Nat) (pg0 : List Nat), (∀ i ∈ S, i < len) → len ≤ 255 →
      (S.map (fun i => Nat.toDigits 10 (i + 1))).foldl (applyToken len group) pg0 =
        S.foldl (fun a i => a.set i group) pg0 := by
  intro S
  induction S with
  | nil => intro pg0 _ _; rfl
  | cons i S ih =>
      intro pg0 hS h255
      rw [List.map_cons, List.foldl_cons, List.foldl_cons,
        applyToken_toDigits len group pg0 i (hS i (by simp)) (by have := hS i (by simp); omega)]
      exact ih (pg0.set i group) (fun j hj => hS j (by simp [hj])) h255

/-- Folding membership writes over a list of in-bounds indices: an index in
the list ends at `group`, any other entry keeps its prior value. -/
theorem setFold_getD (group : Nat) :
    ∀ (S : List Nat) (pg0 : List Nat) (j : Nat), (∀ i ∈ S, i < pg0.length) →
      (S.foldl (fun a i => a.set i group) pg0).getD j 0 =
        if j ∈ S then group else pg0.getD j 0 := by
  intro S
  induction S with
  | nil => intro pg0 j _; simp
  | cons i S ih =>
      intro pg0 j hS
      rw [List.foldl_cons, ih (pg0.set i group) j
        (fun u hu => by rw [List.length_set]; exact hS u (by simp [hu]))]
      by_cases hjS : j ∈ S
      · simp [hjS]
      · rw [if_neg hjS]
        by_cases hji : j = i
        · subst hji
          rw [if_pos (by simp), List.getD_eq_getElem?_getD,
            List.getElem?_set_self (hS j (by simp)), Option.getD_some]
        · rw [if_neg (by simp [hji, hjS]), List.getD_eq_getElem?_getD,
            List.getElem?_set_ne (fun h => hji h.symm), List.getD_eq_getElem?_getD]

/-- Every index listed by `groupPixels` is below `len` and classifies
membership of `group`. -/
theorem mem_groupPixels (pg : List Nat) (len group j : Nat) :
    j ∈ groupPixels pg len group ↔ j < len ∧ pg.getD j 0 = group := by
  rw [groupPixels, List.mem_filter, List.mem_range]
  simp

/-- Two tables with the same classification of membership of `group` below
`len` have the same membership set. -/
theorem groupPixels_eq_of_iff (a b : List Nat) (len group : Nat)
    (h : ∀ j, j < len → (a.getD j 0 = group ↔ b.getD j 0 = group)) :
    groupPixels a len group = groupPixels b len group := by
  rw [groupPixels, groupPixels]
  exact List.filter_congr (fun j hj => by
    rw [decide_eq_decide]
    exact h j (List.mem_range.mp hj))

end CodecLemmas

/-- C3 (amended: the physical pixel count is at most 255, so that 1-based
indices survive the `uint8_t` truncation of `pixel = atoi(token)`): for a
table `pg` of `len ≤ 255` pixels and a group `g` in 1..4, encoding the
membership of `g` and decoding the string back into an all-zero table of
the same pixel count reproduces exactly the membership set of `g`. -/
theorem roundtrip_membership (pg : List Nat) (len group : Nat)
    (hlen : pg.length = len) (h255 : len ≤ 255) (hg1 : 1 ≤ group) (hg4 : group ≤ 4) :
    groupPixels
      (process_pixel_group_str true len group
        (generate_formatted_pixel_group (some pg) len group)
        (List.replicate len 0)) len group = groupPixels pg len group := by
  have hS : ∀ i ∈ groupPixels pg len group, i < len := by
    intro i hi
    exact ((mem_groupPixels pg len group i).mp hi).1
  have hts1 : ∀ t ∈ (groupPixels pg len group).map (fun i => Nat.toDigits 10 (i + 1)),
      t ≠ [] := by
    intro t ht
    obtain ⟨i, hi, rfl⟩ := List.mem_map.mp ht
    exact (atoi_toDigits_inv (i + 1) (by have := hS i hi; omega) (by omega)).2.2
  have hts2 : ∀ t ∈ (groupPixels pg len group).map (fun i => Nat.toDigits 10 (i + 1)),
      ',' ∉ t := by
    intro t ht
    obtain ⟨i, hi, rfl⟩ := List.mem_map.mp ht
    exact (atoi_toDigits_inv (i + 1) (by have := hS i hi; omega) (by omega)).2.1
  rw [generate_eq_commaJoin, process_pixel_group_str, if_pos rfl,
    splitTokens_commaJoin _ hts1 hts2,
    foldl_applyToken_digits len group _ (List.replicate len 0) hS h255]
  apply groupPixels_eq_of_iff
  intro j hjlen
  have hd := setFold_getD group (groupPixels pg len group) (List.replicate len 0) j
    (fun i hi => by rw [List.length_replicate]; exact hS i hi)
  rw [hd]
  by_cases hjS : j ∈ groupPixels pg len group
  · rw [if_pos hjS]
    exact ⟨fun _ => ((mem_groupPixels pg len group j).mp hjS).2, fun _ => rfl⟩
  · rw [if_neg hjS, List.getD_eq_getElem?_getD, List.getElem?_replicate, if_pos hjlen]
    simp only [Option.getD_some]
    constructor
    · intro h; omega
    · intro h; exact absurd ((mem_groupPixels pg len group j).mpr ⟨hjlen, h⟩) hjS

set_option maxRecDepth 100000 in
set_option maxHeartbeats 1000000 in
/-- C3 as stated is false beyond 255 pixels: on a 300-pixel strip, the table
with exactly pixel index 299 in group 1 encodes to "300", and decoding that
back into an all-zero 300-pixel table yields membership set {43}
(the `uint8_t` truncation maps the token 300 to 44), not {299}. -/
theorem roundtrip_membership_cex :
    groupPixels
      (process_pixel_group_str true 300 1
        (generate_formatted_pixel_group (some ((List.replicate 300 0).set 299 1)) 300 1)
        (List.replicate 300 0)) 300 1 ≠
      groupPixels ((List.replicate 300 0).set 299 1) 300 1 := by
  decide

/-- Witness for the amended round trip: a 10-pixel strip with pixels 0, 2, 4
in group 2 round-trips exactly (the encoding is "1,3,5", matching the spec's
first end-to-end scenario). -/
theorem roundtrip_membership_witness :
    ([2, 0, 2, 0, 2, 0, 0, 0, 0, 0] : List Nat).length = 10 ∧ (10 : Nat) ≤ 255 ∧
      groupPixels
        (process_pixel_group_str true 10 2
          (generate_formatted_pixel_group (some [2, 0, 2, 0, 2, 0, 0, 0, 0, 0]) 10 2)
          (List.replicate 10 0)) 10 2 = groupPixels [2, 0, 2, 0, 2, 0, 0, 0, 0, 0] 10 2 :=
  ⟨by decide, by decide,
    roundtrip_membership [2, 0, 2, 0, 2, 0, 0, 0, 0, 0] 10 2 (by decide) (by decide)
      (by decide) (by decide)⟩

/-- A token whose value reduced modulo 256 is zero or exceeds the pixel
count is skipped by the decoder's guard. -/
theorem applyToken_skip (len group : Nat) (pg : List Nat) (t : List Char)
    (h : (atoi t % 256).toNat = 0 ∨ len < (atoi t % 256).toNat) :
    applyToken len group pg t = pg := by
  rw [applyToken]
  exact if_neg (by omega)

/-- C4 (amended: the guard compares the token's value reduced modulo 256,
because `pixel = atoi(token)` truncates to `uint8_t`): decoding a string
each of whose tokens parses to 0, to a non-numeric value, or — after
reduction modulo 256 — to a value exceeding the pixel count, changes no
pixel's membership and raises no error; in particular tokens with numeric
value in (pixel count, 255] are skipped, while a token whose value exceeds
255 may wrap around and write the entry at (value mod 256) − 1. -/
theorem decode_skips_invalid_tokens (initD : Bool) (len group : Nat) (s : List Char)
    (pg : List Nat)
    (h : ∀ t ∈ splitTokens s, (atoi t % 256).toNat = 0 ∨ len < (atoi t % 256).toNat) :
    process_pixel_group_str initD len group s pg = pg := by
  rw [process_pixel_group_str]
  cases initD with
  | false => rfl
  | true =>
      rw [if_pos rfl]
      have : ∀ (ts : List (List Char)) (pg0 : List Nat),
          (∀ t ∈ ts, (atoi t % 256).toNat = 0 ∨ len < (atoi t % 256).toNat) →
          ts.foldl (applyToken len group) pg0 = pg0 := by
        intro ts
        induction ts with
        | nil => intro pg0 _; rfl
        | cons t ts ih =>
            intro pg0 hts
            rw [List.foldl_cons, applyToken_skip len group pg0 t (hts t (by simp))]
            exact ih pg0 (fun u hu => hts u (by simp [hu]))
      exact this (splitTokens s) pg h

/-- C4 as stated is false for tokens above 255: on a 10-pixel strip, the
token "257" has numeric value 257, which exceeds the pixel count 10, yet
decoding it assigns pixel 0 (the `uint8_t` truncation maps 257 to 1). -/
theorem decode_skips_invalid_tokens_cex :
    atoi ['2', '5', '7'] = 257 ∧ (10 : Int) < 257 ∧
      process_pixel_group_str true 10 1 ['2', '5', '7'] (List.replicate 10 0) ≠
        List.replicate 10 0 ∧
      (process_pixel_group_str true 10 1 ['2', '5', '7'] (List.replicate 10 0)).getD 0 0 = 1 := by
  refine ⟨by decide, by decide, by decide, by decide⟩

/-- Witness for the tolerance theorem: the string "0,abc,12" on a 10-pixel
strip (tokens parsing to 0, to a non-numeric 0, and to 12 > 10) decodes to
no membership change. -/
theorem decode_skips_invalid_tokens_witness :
    process_pixel_group_str true 10 3 ['0', ',', 'a', 'b', 'c', ',', '1', '2']
      (List.replicate 10 0) = List.replicate 10 0 :=
  decode_skips_invalid_tokens true 10 3 ['0', ',', 'a', 'b', 'c', ',', '1', '2']
    (List.replicate 10 0) (by decide)

/-- C5: when the overlay runs (initialized, enabled, membership table
allocated), every pixel's four channels are set to the original channel
value times the pixel's group scale, divided by 100 with truncation; any
pixel whose group scale is 100 — in particular any pixel in group 0, the
default group's scale being 100 — keeps all four channels bit-identical. -/
theorem overlay_scales_channels (st : UMState) (len : Nat) (pg : List Nat)
    (colors : List Color)
    (hi : st.initDone = true) (he : st.enabled = true)
    (hpg : st.pixel_groups = some pg) (h0 : st.group_scale 0 = 100) :
    ∃ out, handleOverlayDraw st len colors = some out ∧
      (∀ i, i < len →
        out.getD i ⟨0, 0, 0, 0⟩ =
          { r := (colors.getD i ⟨0, 0, 0, 0⟩).r * st.group_scale (pg.getD i 0) / 100
            g := (colors.getD i ⟨0, 0, 0, 0⟩).g * st.group_scale (pg.getD i 0) / 100
            b := (colors.getD i ⟨0, 0, 0, 0⟩).b * st.group_scale (pg.getD i 0) / 100
            w := (colors.getD i ⟨0, 0, 0, 0⟩).w * st.group_scale (pg.getD i 0) / 100 }) ∧
      (∀ i, i < len → st.group_scale (pg.getD i 0) = 100 →
        out.getD i ⟨0, 0, 0, 0⟩ = colors.getD i ⟨0, 0, 0, 0⟩) ∧
      (∀ i, i < len → pg.getD i 0 = 0 →
        out.getD i ⟨0, 0, 0, 0⟩ = colors.getD i ⟨0, 0, 0, 0⟩) := by
  have hout : handleOverlayDraw st len colors =
      some ((List.range len).map (fun pixel =>
        scaleColor (st.group_scale (pg.getD pixel 0)) (colors.getD pixel ⟨0, 0, 0, 0⟩))) := by
    rw [handleOverlayDraw, hi, he, hpg]
    rfl
  refine ⟨_, hout, ?_, ?_, ?_⟩
  all_goals intro i hilen
  · rw [List.getD_eq_getElem?_getD, List.getElem?_map, List.getElem?_range hilen,
      Option.map_some', Option.getD_some]
    rfl
  · intro h100
    rw [List.getD_eq_getElem?_getD, List.getElem?_map, List.getElem?_range hilen,
      Option.map_some', Option.getD_some, h100]
    have : ∀ c : Color, scaleColor 100 c = c := by
      intro c
      cases c with
      | mk r g b w => simp [scaleColor, scaleChannel]
    exact this _
  · intro hg0
    rw [List.getD_eq_getElem?_getD, List.getElem?_map, List.getElem?_range hilen,
      Option.map_some', Option.getD_some, hg0, h0]
    have : ∀ c : Color, scaleColor 100 c = c := by
      intro c
      cases c with
      | mk r g b w => simp [scaleColor, scaleChannel]
    exact this _

/-- Witness: on `stOverlay` (2 pixels, pixel 0 in group 2 at scale 50,
pixel 1 in group 0), the overlay maps (200,200,200,200) to (100,100,100,100)
and leaves pixel 1 untouched — spec §8, end-to-end scenario 1. -/
theorem overlay_scales_channels_witness :
    handleOverlayDraw stOverlay 2 colsOverlay =
      some [⟨100, 100, 100, 100⟩, ⟨10, 20, 30, 40⟩] ∧
    ∃ out, handleOverlayDraw stOverlay 2 colsOverlay = some out := by
  refine ⟨by decide, ?_⟩
  obtain ⟨out, hout, -, -, -⟩ :=
    overlay_scales_channels stOverlay 2 [2, 0] colsOverlay rfl rfl rfl rfl
  exact ⟨out, hout⟩

/-- C2 is contradicted by the code: `handleOverlayDraw` checks only
`initDone` and `enabled` (line 260); the first two conjuncts show those two
guards make the overlay a no-op, but with the membership table still NULL
(allocation failed) on a 1-pixel strip the loop body dereferences the NULL
`pixel_groups` (line 269) instead of being a no-op. -/
theorem overlay_null_table_deref :
    handleOverlayDraw ⟨true, false, fun _ => 100, none⟩ 1 [⟨200, 200, 200, 200⟩] =
      some [⟨200, 200, 200, 200⟩] ∧
    handleOverlayDraw ⟨false, true, fun _ => 100, none⟩ 1 [⟨200, 200, 200, 200⟩] =
      some [⟨200, 200, 200, 200⟩] ∧
    handleOverlayDraw ⟨true, true, fun _ => 100, none⟩ 1 [⟨200, 200, 200, 200⟩] = none := by
  refine ⟨rfl, rfl, rfl⟩

/-- C1 is contradicted by the code: `addToConfig` writes group `g` under
`"Group g"` (capital G, with a space) while `readFromConfig` looks up
`"groupg"` (lowercase, no space), so the loader never finds what the saver
wrote: saving a state whose group-1 scale is 50 and re-loading the produced
document leaves the stored scale at the default 100, and the load reports
the configuration incomplete. -/
theorem save_load_key_mismatch :
    saveGroupKey 1 ≠ loadGroupKey 1 ∧ saveGroupKey 2 ≠ loadGroupKey 2 ∧
    saveGroupKey 3 ≠ loadGroupKey 3 ∧ saveGroupKey 4 ≠ loadGroupKey 4 ∧
    (addToConfig stRound 1).lookup (loadGroupKey 1) = none ∧
    (addToConfig stRound 1).lookup (saveGroupKey 1) =
      some { scale := some 50, pixels := some [] } ∧
    stRound.group_scale 1 = 50 ∧
    (readFromConfig (some (addToConfig stRound 1)) 1 none stRound).1.group_scale 1 = 100 ∧
    (readFromConfig (some (addToConfig stRound 1)) 1 none stRound).2 = false := by
  refine ⟨by decide, by decide, by decide, by decide, by decide, by decide, rfl, by decide,
    by decide⟩

/-- C7 is contradicted by the code: the membership array is obtained from
`malloc` (line 216), which does not initialize its contents; if the fresh
block of a 1-pixel strip holds the byte 7, the table after the first
(boot-time) load is `[7]`, not all zeros. -/
theorem membership_after_alloc_not_zeroed :
    (readFromConfig none 1 (some [7]) (initialState (fun _ => 0))).1.pixel_groups =
      some [7] ∧
    ([7] : List Nat) ≠ List.replicate 1 0 := by
  refine ⟨by decide, by decide⟩

section LoadLemmas

/-- Before initialization, the per-group loop leaves an already-allocated
membership table bit-for-bit unchanged, and never sets `initDone`. -/
theorem readGroups_boot (doc : Option ModuleDoc) (len : Nat) (alloc : Option (List Nat)) :
    ∀ (gs : List Nat) (en : Bool) (gsc : Nat → Nat) (pg : List Nat) (cc : Bool),
      (readGroups doc len alloc gs ⟨en, false, gsc, some pg⟩ cc).1.initDone = false ∧
      (readGroups doc len alloc gs ⟨en, false, gsc, some pg⟩ cc).1.pixel_groups = some pg := by
  intro gs
  induction gs with
  | nil => intro en gsc pg cc; exact ⟨rfl, rfl⟩
  | cons g gs ih =>
      intro en gsc pg cc
      simp only [readGroups, processPixelsM, process_pixel_group_str, Option.map_some',
        Bool.false_eq_true, if_false]
      exact ih en _ pg _

/-- The per-group loop writes no scale index outside its group list. -/
theorem readGroups_scale_untouched (doc : Option ModuleDoc) (len : Nat)
    (alloc : Option (List Nat)) :
    ∀ (gs : List Nat) (st : UMState) (cc : Bool) (j : Nat), j ∉ gs →
      (readGroups doc len alloc gs st cc).1.group_scale j = st.group_scale j := by
  intro gs
  induction gs with
  | nil => intro st cc j _; rfl
  | cons g gs ih =>
      intro st cc j hj
      have hjg : j ≠ g := fun h => hj (by simp [h])
      have hjgs : j ∉ gs := fun h => hj (by simp [h])
      obtain ⟨en, idn, gsc, pgs⟩ := st
      cases pgs with
      | some pg =>
          simp only [readGroups]
          rw [ih _ _ j hjgs]
          simp [processPixelsM, hjg]
      | none =>
          cases alloc with
          | none => simp only [readGroups]; simp [hjg]
          | some junk =>
              simp only [readGroups]
              rw [ih _ _ j hjgs]
              simp [processPixelsM, hjg]

/-- In a run in which allocation is not needed or succeeds, the per-group
loop stores for each listed group the clamped document scale. -/
theorem readGroups_scale_set (doc : Option ModuleDoc) (len : Nat) :
    ∀ (gs : List Nat) (alloc : Option (List Nat)) (st : UMState) (cc : Bool) (g : Nat),
      g ∈ gs → gs.Nodup → (st.pixel_groups ≠ none ∨ alloc ≠ none) →
      (readGroups doc len alloc gs st cc).1.group_scale g =
        loadedScale ((lookupGroup doc g).bind (fun e => e.scale)) := by
  intro gs
  induction gs with
  | nil => intro alloc st cc g hg; exact absurd hg (by simp)
  | cons g' gs ih =>
      intro alloc st cc g hg hnd hok
      obtain ⟨en, idn, gsc, pgs⟩ := st
      rcases List.mem_cons.mp hg with hgg | hgtail
      · subst hgg
        have hgnot : g ∉ gs := (List.nodup_cons.mp hnd).1
        cases pgs with
        | some pg =>
            simp only [readGroups]
            rw [readGroups_scale_untouched doc len alloc gs _ _ g hgnot]
            simp only [processPixelsM]
            cases hf : (lookupGroup doc g).bind (fun e => e.scale) with
            | none => simp [getJsonValueNat, hf, loadedScale]
            | some v => simp [getJsonValueNat, hf, loadedScale]
        | none =>
            cases alloc with
            | none => simp at hok
            | some junk =>
                simp only [readGroups]
                rw [readGroups_scale_untouched doc len (some junk) gs _ _ g hgnot]
                simp only [processPixelsM]
                cases hf : (lookupGroup doc g).bind (fun e => e.scale) with
                | none => simp [getJsonValueNat, hf, loadedScale]
                | some v => simp [getJsonValueNat, hf, loadedScale]
      · have hnd' : gs.Nodup := (List.nodup_cons.mp hnd).2
        cases pgs with
        | some pg =>
            simp only [readGroups]
            rw [ih alloc _ _ g hgtail hnd' (by simp [processPixelsM])]
        | none =>
            cases alloc with
            | none => simp at hok
            | some junk =>
                simp only [readGroups]
                rw [ih (some junk) _ _ g hgtail hnd' (by simp [processPixelsM])]

end LoadLemmas

/-- C6: `process_pixel_group_str` changes no membership entry while
`initDone` is false (its first statement, line 58, returns); and because the
host invokes `readFromConfig` before `setup()` (the ordering documented at
line 184 and in spec §4.5/§2), a boot-time load — starting from the
boot state, with `initDone` still false — leaves the freshly allocated
membership array's contents exactly as `malloc` returned them: no pixels
field is decoded until a load that happens after `setup()`. -/
theorem boot_load_never_decodes :
    (∀ (len group : Nat) (s : List Char) (pg : List Nat),
        process_pixel_group_str false len group s pg = pg) ∧
    (∀ (doc : Option ModuleDoc) (len : Nat) (junk : List Nat) (scales : Nat → Nat),
        (readFromConfig doc len (some junk) (initialState scales)).1.pixel_groups =
          some junk ∧
        (readFromConfig doc len (some junk) (initialState scales)).1.initDone = false) := by
  constructor
  · intro len group s pg
    rfl
  · intro doc len junk scales
    have h1 : readFromConfig doc len (some junk) (initialState scales) =
        readGroups doc len (some junk) [2, 3, 4]
          (processPixelsM ⟨false, false, fun j =>
              if j = 1 then
                (if (getJsonValueNat ((lookupGroup doc 1).bind (fun e => e.scale)) 100).1 > 100
                 then 100
                 else (getJsonValueNat ((lookupGroup doc 1).bind (fun e => e.scale)) 100).1)
              else scales j, some junk⟩ len 1
            (getJsonValueStr ((lookupGroup doc 1).bind (fun e => e.pixels)) []).1)
          ((!doc.isNone) && (getJsonValueNat ((lookupGroup doc 1).bind (fun e => e.scale)) 100).2
            && (getJsonValueStr ((lookupGroup doc 1).bind (fun e => e.pixels)) []).2) := by
      rw [readFromConfig, initialState]
      rfl
    rw [h1]
    simp only [processPixelsM, Option.map_some', process_pixel_group_str,
      Bool.false_eq_true, if_false]
    exact ⟨(readGroups_boot doc len (some junk) [2, 3, 4] false _ junk _).2,
      (readGroups_boot doc len (some junk) [2, 3, 4] false _ junk _).1⟩

/-- C8 (spec-modelled `getJsonValue`): for any scale value `v` present in the
document for a group `g` in 1..4, in a load in which the membership
allocation is not needed or succeeds, the stored scale after
`readFromConfig` is `min v 100`. -/
theorem load_clamps_scale (doc : Option ModuleDoc) (len : Nat)
    (alloc : Option (List Nat)) (st : UMState) (g v : Nat)
    (hok : st.pixel_groups ≠ none ∨ alloc ≠ none)
    (hg1 : 1 ≤ g) (hg4 : g ≤ 4)
    (hv : (lookupGroup doc g).bind (fun e => e.scale) = some v) :
    (readFromConfig doc len alloc st).1.group_scale g = min v 100 := by
  have hmem : g ∈ [1, 2, 3, 4] := by interval_cases g <;> simp
  rw [readFromConfig,
    readGroups_scale_set doc len [1, 2, 3, 4] alloc st _ g hmem (by decide) hok, hv,
    loadedScale]
  split
  · omega
  · omega

/-- Witness: a document giving group 1 the out-of-range scale 300 loads as
min 300 100 = 100 on a state whose table is already allocated. -/
theorem load_clamps_scale_witness :
    (readFromConfig (some [(loadGroupKey 1, { scale := some 300, pixels := none })])
        1 none stRound).1.group_scale 1 = min 300 100 :=
  load_clamps_scale (some [(loadGroupKey 1, { scale := some 300, pixels := none })])
    1 none stRound 1 300 (by simp [stRound]) (by decide) (by decide) (by decide)

/-- Every modelled entry point preserves a default-group scale of 100:
`readFromConfig` iterates only groups 1..4 and never writes index 0, and no
other operation writes the scale array at all. -/
theorem applyOp_scale_zero (st : UMState) (op : UMOp) (h : st.group_scale 0 = 100) :
    (applyOp st op).group_scale 0 = 100 := by
  cases op with
  | opEnable b => exact h
  | opSetup => simp [applyOp, setupU]
  | opReadConfig doc len alloc =>
      show (readFromConfig doc len alloc st).1.group_scale 0 = 100
      rw [readFromConfig,
        readGroups_scale_untouched doc len alloc [1, 2, 3, 4] st _ 0 (by decide)]
      exact h
  | opProcessPixels len group s => exact h
  | opLoopTick => exact h
  | opAddToConfig len => exact h
  | opOverlayDraw len colors => exact h

/-- C9: after `setup()` has run, the default group's scale (index 0) is 100
and remains 100 after every subsequent sequence of the usermod's
operations, whatever configuration documents are loaded. -/
theorem scale_zero_invariant (st : UMState) (ops : List UMOp) :
    (ops.foldl applyOp (setupU st)).group_scale 0 = 100 := by
  have hbase : (setupU st).group_scale 0 = 100 := by simp [setupU]
  suffices h : ∀ (l : List UMOp) (s : UMState), s.group_scale 0 = 100 →
      (l.foldl applyOp s).group_scale 0 = 100 from h ops (setupU st) hbase
  intro l
  induction l with
  | nil => intro s hs; exact hs
  | cons op l ih => intro s hs; exact ih _ (applyOp_scale_zero s op hs)

/-- C10: allocation failure is the only surfaced error: with the table
unallocated and `malloc` failing, `readFromConfig` returns false from
within group 1's iteration, leaving the table unallocated and the scales of
the remaining groups 2..4 unwritten; and in every run in which allocation is
not needed or succeeds there is no early return — every group 1..4 gets its
scale stored by the clamped-or-default rule whatever the document holds
(absent objects, absent fields, arbitrary pixel strings). -/
theorem alloc_failure_only_abort :
    (∀ (doc : Option ModuleDoc) (len : Nat) (st : UMState), st.pixel_groups = none →
        (readFromConfig doc len none st).2 = false ∧
        (readFromConfig doc len none st).1.pixel_groups = none ∧
        ∀ g, 2 ≤ g → (readFromConfig doc len none st).1.group_scale g = st.group_scale g) ∧
    (∀ (doc : Option ModuleDoc) (len : Nat) (alloc : Option (List Nat)) (st : UMState)
        (g : Nat), (st.pixel_groups ≠ none ∨ alloc ≠ none) → 1 ≤ g → g ≤ 4 →
        (readFromConfig doc len alloc st).1.group_scale g =
          loadedScale ((lookupGroup doc g).bind (fun e => e.scale))) := by
  constructor
  · intro doc len st hnone
    obtain ⟨en, idn, gsc, pgs⟩ := st
    cases pgs with
    | some pg => simp at hnone
    | none =>
        refine ⟨rfl, rfl, ?_⟩
        intro g hg
        simp only [readFromConfig, readGroups]
        rw [if_neg (by omega : ¬g = 1)]
  · intro doc len alloc st g hok hg1 hg4
    have hmem : g ∈ [1, 2, 3, 4] := by interval_cases g <;> simp
    rw [readFromConfig,
      readGroups_scale_set doc len [1, 2, 3, 4] alloc st _ g hmem (by decide) hok]

/-- Witness: with no document object, a null table and a failing `malloc`,
the load reports false and keeps the boot-time scale of group 3; with the
table already allocated, group 2's scale loads to its default 100 even
though the document is entirely absent. -/
theorem alloc_failure_only_abort_witness :
    (readFromConfig none 1 none (initialState (fun _ => 77))).2 = false ∧
    (readFromConfig none 1 none (initialState (fun _ => 77))).1.group_scale 3 = 77 ∧
    (readFromConfig none 1 none stRound).1.group_scale 2 = 100 := by
  obtain ⟨h1, h2⟩ := alloc_failure_only_abort
  refine ⟨(h1 none 1 (initialState (fun _ => 77)) rfl).1,
    (h1 none 1 (initialState (fun _ => 77)) rfl).2.2 3 (by omega), ?_⟩
  rw [h2 none 1 none stRound 2 (by simp [stRound]) (by omega) (by omega)]
  rfl

end BrightnessGroups
